import Mathlib

/-!
# Dependency-confusion scanner: the composer-installed resolver and the safe-namespace filter

A shallow embedding of `src/composer-installed.go` and of `removeSafe` in `src/main.go`.

* The Go standard library is not part of the repository.  `json.Unmarshal` and
  `filepath.Match` are therefore arguments of the embedded functions, and a model of
  each of them over parsed text is given next to it (`jsonUnmarshalVendor`,
  `jsonUnmarshalPkg`, `filepathMatch`).
* A Go `range` over a map visits the keys in an order chosen by the runtime.  The
  order is an argument (`RangeOrder`): any permutation, possibly a different one for
  every `range` statement that is executed.
* The registry is an argument too: the outcome of the k-th request of the run.
  The requests made are recorded in a log, oldest first.
* `fmt.Printf` and `time.Sleep` do not take part in any decision and are left out.
-/

namespace Confused

/-! ## Data model -/

/-- A Go `map[string]string`, as its entries.  The keys are pairwise distinct in every
map built by `GoMap.set` from the empty map. -/
abbrev GoMap := List (String × String)

/-- Go `m[k] = v`: overwrite the entry when the key is present, add one otherwise. -/
def GoMap.set : GoMap → String → String → GoMap
  | [], k, v => [(k, v)]
  | (k', v') :: m, k, v => if k' = k then (k', v) :: m else (k', v') :: GoMap.set m k v

/-- The key set of a map, before the runtime picks an iteration order. -/
def GoMap.keys (m : GoMap) : List String := m.map Prod.fst

/-- The order in which the runtime visits the keys of a map: `visit k ks` is the order
used by the k-th `range` statement of the run on key set `ks`. -/
structure RangeOrder where
  visit : Nat → List String → List String
  isPerm : ∀ k ks, (visit k ks).Perm ks

/-- Keys visited in stored order. -/
def RangeOrder.stored : RangeOrder := ⟨fun _ ks => ks, fun _ _ => List.Perm.refl _⟩

/-- Keys visited in reverse stored order. -/
def RangeOrder.reversed : RangeOrder := ⟨fun _ ks => ks.reverse, fun _ ks => List.reverse_perm ks⟩

/-- One element of `ComposerInstalledJSON` (composer-installed.go:11-15). -/
structure ComposerInstalledRecord where
  Name : String
  Require : GoMap
  RequireDev : GoMap

/-- The Go zero value of a record. -/
def ComposerInstalledRecord.zero : ComposerInstalledRecord := ⟨"", [], []⟩

/-- Shape (1): `type ComposerInstalledJSON []struct{...}`. -/
abbrev ComposerInstalledJSON := List ComposerInstalledRecord

/-- Shape (2): `type ComposerInstalledJSONPkg struct` (composer-installed.go:17-20). -/
structure ComposerInstalledJSONPkg where
  Packages : ComposerInstalledJSON
  DevPackages : List String

/-- The resolver state (composer-installed.go:22-25). -/
structure ComposerInstalledLookup where
  Packages : List String
  Verbose : Bool

/-- Constructor (composer-installed.go:27-29). -/
def NewComposerInstalledLookup (verbose : Bool) : ComposerInstalledLookup :=
  { Packages := [], Verbose := verbose }

/-! ## ReadPackagesFromFile -/

/-- The loop `for i := 0; i < len(xs); i++ { pk = append(pk, xs[i]) }`, also the body of
a `range` loop once the visiting order is fixed. -/
def appendEach (pk : List String) (xs : List String) : List String :=
  xs.foldl (fun acc x => acc ++ [x]) pk

/-- The loop of composer-installed.go:63-75 from record index `i` on: the record's own
name, then the keys of `Require`, then the keys of `RequireDev`. -/
def appendRecords (ord : RangeOrder) : Nat → ComposerInstalledJSON → List String → List String
  | _, [], pk => pk
  | i, r :: rs, pk =>
    let pk1 := pk ++ [r.Name]
    let pk2 := appendEach pk1 (ord.visit (2 * i) r.Require.keys)
    let pk3 := appendEach pk2 (ord.visit (2 * i + 1) r.RequireDev.keys)
    appendRecords ord (i + 1) rs pk3

/-- The method `ReadPackagesFromFile` (composer-installed.go:31-78).  The two calls of
`json.Unmarshal`, one per target type, are the first two arguments.  The result is
the returned error (`none` for `nil`) and the resolver after the call. -/
def ReadPackagesFromFile {Raw E : Type}
    (unmarshalVendor : Raw → Except E ComposerInstalledJSON)
    (unmarshalPkg : Raw → Except E ComposerInstalledJSONPkg)
    (ord : RangeOrder) (c : ComposerInstalledLookup) (rawfile : Raw) :
    Option E × ComposerInstalledLookup :=
  match unmarshalVendor rawfile with
  | .ok data =>
    -- vendorflag stays true: d = data
    (none, { c with Packages := appendRecords ord 0 data c.Packages })
  | .error _ =>
    -- vendorflag = false: second decode
    match unmarshalPkg rawfile with
    | .error err2 => (some err2, c)
    | .ok data2 =>
      let pk := appendEach c.Packages data2.DevPackages
      (none, { c with Packages := appendRecords ord 0 data2.Packages pk })

/-! ## A model of `json.Unmarshal` at the two target types -/

/-- A parsed JSON text.  An object keeps its members in textual order, repeated keys
included. -/
inductive JSONValue where
  | null : JSONValue
  | bool (b : Bool) : JSONValue
  | number (lit : String) : JSONValue
  | string (s : String) : JSONValue
  | array (elems : List JSONValue) : JSONValue
  | object (members : List (String × JSONValue)) : JSONValue

/-- The two ways `json.Unmarshal` fails. -/
inductive JSONError where
  | syntaxError : JSONError
  | unmarshalTypeError : JSONError
  deriving DecidableEq

/-- The raw file: `none` is a byte string that is not a JSON text. -/
abbrev RawFile := Option JSONValue

/-- Case folding of one rune of a member name.  Only the runes whose fold orbit meets
ASCII are folded (a-z, U+017F, U+212A): every field tag of this program is ASCII, so
equality of the folded name with a folded tag is decided as by the library. -/
def foldRune (r : Char) : Char :=
  if 97 ≤ r.toNat ∧ r.toNat ≤ 122 then Char.ofNat (r.toNat - 32)
  else if r.toNat = 0x17F then 'S'
  else if r.toNat = 0x212A then 'K'
  else r

/-- Folded member name. -/
def foldName (s : String) : List Char := s.data.map foldRune

/-- Does JSON member name `key` select the struct field tagged `tag`? -/
def fieldMatches (key tag : String) : Bool := foldName key == foldName tag

/-- Decoding into a Go `string`: `null` leaves the target as it is. -/
def storeString (cur : String) : JSONValue → Except JSONError String
  | .null => .ok cur
  | .string s => .ok s
  | _ => .error .unmarshalTypeError

/-- Decoding into a `map[string]string`: `null` resets the map, an object adds its
members to the entries already there, each value decoded into a fresh string. -/
def storeMap (cur : GoMap) : JSONValue → Except JSONError GoMap
  | .null => .ok []
  | .object ms =>
    ms.foldlM (fun m kv => (storeString "" kv.2).map (fun s => GoMap.set m kv.1 s)) cur
  | _ => .error .unmarshalTypeError

/-- Decoding one member of a record object into the record. -/
def storeRecordField (r : ComposerInstalledRecord) (kv : String × JSONValue) :
    Except JSONError ComposerInstalledRecord :=
  if fieldMatches kv.1 "name" then
    (storeString r.Name kv.2).map (fun s => { r with Name := s })
  else if fieldMatches kv.1 "require" then
    (storeMap r.Require kv.2).map (fun m => { r with Require := m })
  else if fieldMatches kv.1 "require-dev" then
    (storeMap r.RequireDev kv.2).map (fun m => { r with RequireDev := m })
  else .ok r

/-- Decoding into a record struct: `null` leaves it as it is, an object stores its
members one after the other, anything else is a type error. -/
def storeRecord (cur : ComposerInstalledRecord) : JSONValue → Except JSONError ComposerInstalledRecord
  | .null => .ok cur
  | .object ms => ms.foldlM storeRecordField cur
  | _ => .error .unmarshalTypeError

/-- A Go slice: the backing array as far as it has been written, and the length. -/
structure GoSlice (α : Type) where
  backing : List α
  len : Nat

/-- The visible elements of a slice. -/
def GoSlice.elems {α : Type} (s : GoSlice α) : List α := s.backing.take s.len

/-- The nil slice. -/
def GoSlice.nil {α : Type} : GoSlice α := ⟨[], 0⟩

/-- The element loop of the array decoder: element `i` is decoded into what the backing
array holds at index `i` (the zero value past its end); what lies past the last
decoded index stays in the backing array. -/
def storeElems {α : Type} (store : α → JSONValue → Except JSONError α) (zero : α) :
    List α → List JSONValue → Except JSONError (List α)
  | backing, [] => .ok backing
  | [], e :: es =>
    match store zero e with
    | .error err => .error err
    | .ok x => (storeElems store zero [] es).map (fun xs => x :: xs)
  | b :: bs, e :: es =>
    match store b e with
    | .error err => .error err
    | .ok x => (storeElems store zero bs es).map (fun xs => x :: xs)

/-- Decoding into a slice (current Go releases, which grow the slice in place): `null`
gives the nil slice, an empty array a fresh empty slice, a non-empty array of `n`
elements a slice of length `n`. -/
def storeSlice {α : Type} (store : α → JSONValue → Except JSONError α) (zero : α)
    (cur : GoSlice α) : JSONValue → Except JSONError (GoSlice α)
  | .null => .ok GoSlice.nil
  | .array [] => .ok ⟨[], 0⟩
  | .array (e :: es) =>
    (storeElems store zero cur.backing (e :: es)).map (fun b => ⟨b, (e :: es).length⟩)
  | _ => .error .unmarshalTypeError

/-- Model of `json.Unmarshal(rawfile, &data)` with `data := ComposerInstalledJSON{}`. -/
def jsonUnmarshalVendor : RawFile → Except JSONError ComposerInstalledJSON
  | none => .error .syntaxError
  | some j => (storeSlice storeRecord ComposerInstalledRecord.zero ⟨[], 0⟩ j).map GoSlice.elems

/-- The struct `ComposerInstalledJSONPkg` while it is being decoded. -/
structure PkgTarget where
  Packages : GoSlice ComposerInstalledRecord
  DevPackages : GoSlice String

/-- Decoding one member of the top-level object of shape (2). -/
def storePkgField (t : PkgTarget) (kv : String × JSONValue) : Except JSONError PkgTarget :=
  if fieldMatches kv.1 "packages" then
    (storeSlice storeRecord ComposerInstalledRecord.zero t.Packages kv.2).map
      (fun s => { t with Packages := s })
  else if fieldMatches kv.1 "dev-package-names" then
    (storeSlice storeString "" t.DevPackages kv.2).map (fun s => { t with DevPackages := s })
  else .ok t

/-- Model of `json.Unmarshal(rawfile, &data2)` with `data2 := ComposerInstalledJSONPkg{}`. -/
def jsonUnmarshalPkg : RawFile → Except JSONError ComposerInstalledJSONPkg
  | none => .error .syntaxError
  | some .null => .ok ⟨[], []⟩
  | some (.object ms) =>
    (ms.foldlM storePkgField ⟨GoSlice.nil, GoSlice.nil⟩).map
      (fun t => ⟨t.Packages.elems, t.DevPackages.elems⟩)
  | some _ => .error .unmarshalTypeError

/-- The resolver method on the modelled decoder. -/
def readInstalled (ord : RangeOrder) (c : ComposerInstalledLookup) (rawfile : RawFile) :
    Option JSONError × ComposerInstalledLookup :=
  ReadPackagesFromFile jsonUnmarshalVendor jsonUnmarshalPkg ord c rawfile

/-! ## The registry probe -/

/-- Go `strings.HasPrefix`. -/
def HasPrefix (s pre : String) : Bool := pre.data.isPrefixOf s.data

/-- What `client.Get` returns: an error, or a response with its status code.  The
client does not follow redirects (`http.ErrUseLastResponse`), so the status is that
of the first response. -/
inductive Outcome where
  | transportError : Outcome
  | response (status : Nat) : Outcome
  deriving DecidableEq

/-- The registry: the outcome of the request for `name` when `k` requests have been
made before it. -/
abbrev Registry := Nat → String → Outcome

/-- The method `isAvailableInPublic` (composer-installed.go:95-142), with the log of
the requests made so far: the result is the returned boolean and the log after.
The value of the recursive call at line 138 is not used by the source. -/
def isAvailableInPublic (net : Registry) (pkgname : String) (retry : Int) (log : List String) :
    Bool × List String :=
  if retry > 3 then (false, log)
  else if HasPrefix pkgname "ext-" then (true, log)
  else
    match net log.length pkgname with
    | .transportError => (false, log ++ [pkgname])
    | .response status =>
      if status = 200 then (true, log ++ [pkgname])
      else if status = 429 then
        let r := isAvailableInPublic net pkgname (retry + 1) (log ++ [pkgname])
        (false, r.2)
      else (false, log ++ [pkgname])
termination_by (4 - retry).toNat
decreasing_by omega

/-- One turn of the loop of `PackagesNotInPublic` on the state (notavail, log). -/
def notInPublicStep (net : Registry) (st : List String × List String) (pkg : String) :
    List String × List String :=
  if pkg = "php" then st
  else
    let r := isAvailableInPublic net pkg 0 st.2
    if !r.1 then (st.1 ++ [pkg], r.2) else (st.1, r.2)

/-- The method `PackagesNotInPublic` (composer-installed.go:80-93): the returned slice
and the log after. -/
def PackagesNotInPublic (net : Registry) (c : ComposerInstalledLookup) (log : List String) :
    List String × List String :=
  c.Packages.foldl (notInPublicStep net) ([], log)

/-! ## removeSafe -/

/-- Pieces of a text between the occurrences of a separator character. -/
def splitChars (sep : Char) : List Char → List (List Char)
  | [] => [[]]
  | c :: cs =>
    if c = sep then [] :: splitChars sep cs
    else
      match splitChars sep cs with
      | [] => [[c]]
      | p :: ps => (c :: p) :: ps

/-- Go `strings.Split(s, sep)` for a separator of one character. -/
def Split (s : String) (sep : Char) : List String := (splitChars sep s.data).map String.mk

/-- Go `unicode.IsSpace`. -/
def isSpace (c : Char) : Bool :=
  let n := c.toNat
  (9 ≤ n && n ≤ 13) || n = 32 || n = 0x85 || n = 0xA0 || n = 0x1680 ||
    (0x2000 ≤ n && n ≤ 0x200A) || n = 0x2028 || n = 0x2029 || n = 0x202F ||
    n = 0x205F || n = 0x3000

/-- Go `strings.TrimSpace`. -/
def TrimSpace (s : String) : String :=
  String.mk ((s.data.dropWhile isSpace).reverse.dropWhile isSpace).reverse

/-- The inner loop of `removeSafe` (main.go:139-148): is `p` ignored? -/
def ignoredBy {E : Type} (Match : String → String → Except E Bool)
    (safeNamespaces : List String) (p : String) : Bool :=
  safeNamespaces.foldl
    (fun ignored s =>
      match Match s p with
      | .error _ => ignored
      | .ok ok => if ok then true else ignored)
    false

/-- The function `removeSafe` (main.go:129-154); `filepath.Match` is the first argument. -/
def removeSafe {E : Type} (Match : String → String → Except E Bool)
    (packages : List String) (safespaces : String) : List String :=
  let safeTmp := Split safespaces ','
  let safeNamespaces := safeTmp.foldl (fun acc s => acc ++ [TrimSpace s]) []
  packages.foldl
    (fun retSlice p => if !(ignoredBy Match safeNamespaces p) then retSlice ++ [p] else retSlice)
    []

/-! ## A model of `filepath.Match` (Unix build: separator `/`, escape `\`)

Patterns and names are sequences of code points; the library walks their UTF-8
bytes, which is the same walk on ASCII text.  The three loops of the library run on
fuel here; `filepathMatch` starts each of them with more fuel than it can use. -/

/-- The errors of the matcher: the library's `ErrBadPattern`, and fuel running out. -/
inductive MatchError where
  | errBadPattern : MatchError
  | outOfFuel : MatchError
  deriving DecidableEq

/-- The scan loop of `scanChunk`: the chunk up to the next `*` outside a class, and
the rest of the pattern. -/
def scanLoop : Bool → List Char → List Char × List Char
  | _, [] => ([], [])
  | inrange, c :: rest =>
    if c = '\\' then
      match rest with
      | [] => ([c], [])
      | c2 :: rest2 =>
        let r := scanLoop inrange rest2
        (c :: c2 :: r.1, r.2)
    else if c = '[' then
      let r := scanLoop true rest
      (c :: r.1, r.2)
    else if c = ']' then
      let r := scanLoop false rest
      (c :: r.1, r.2)
    else if c = '*' ∧ inrange = false then ([], c :: rest)
    else
      let r := scanLoop inrange rest
      (c :: r.1, r.2)

/-- Library `scanChunk`: (star, chunk, rest). -/
def scanChunk (pattern : List Char) : Bool × List Char × List Char :=
  let star := pattern.head? == some '*'
  let r := scanLoop false (pattern.dropWhile (fun c => c == '*'))
  (star, r.1, r.2)

/-- Library `getEsc`: a possibly escaped character of a class and the rest of the
chunk; `none` is `ErrBadPattern`. -/
def getEsc : List Char → Option (Char × List Char)
  | [] => none
  | c :: rest =>
    if c = '-' ∨ c = ']' then none
    else
      match (if c = '\\' then rest else c :: rest) with
      | [] => none
      | r :: nchunk => if nchunk = [] then none else some (r, nchunk)

/-- The range loop of a character class: (matched, chunk after the closing bracket). -/
def classLoop : Nat → Char → Bool → Nat → List Char → Except MatchError (Bool × List Char)
  | 0, _, _, _, _ => .error .outOfFuel
  | fuel + 1, r, matched, nrange, chunk =>
    if chunk.head? = some ']' ∧ nrange > 0 then .ok (matched, chunk.tail)
    else
      match getEsc chunk with
      | none => .error .errBadPattern
      | some (lo, chunk1) =>
        if chunk1.head? = some '-' then
          match getEsc chunk1.tail with
          | none => .error .errBadPattern
          | some (hi, chunk2) =>
            classLoop fuel r (matched || (decide (lo ≤ r) && decide (r ≤ hi))) (nrange + 1) chunk2
        else
          classLoop fuel r (matched || (decide (lo ≤ r) && decide (r ≤ lo))) (nrange + 1) chunk1

/-- Library `matchChunk`: `.ok (some rest)` is a match that leaves `rest` of the name,
`.ok none` is no match.  Once `failed` is set the name is no longer read. -/
def matchChunk : Nat → Bool → List Char → List Char → Except MatchError (Option (List Char))
  | 0, _, _, _ => .error .outOfFuel
  | fuel + 1, failed0, chunk, s =>
    match chunk with
    | [] => if failed0 then .ok none else .ok (some s)
    | c :: rest =>
      let failed := failed0 || s.isEmpty
      if c = '[' then
        let r := if failed then Char.ofNat 0 else s.headD (Char.ofNat 0)
        let s1 := if failed then s else s.tail
        let negated := rest.head? == some '^'
        let chunk1 := if negated then rest.tail else rest
        match classLoop fuel r false 0 chunk1 with
        | .error e => .error e
        | .ok (matched, chunk2) => matchChunk fuel (failed || (matched == negated)) chunk2 s1
      else if c = '?' then
        if failed then matchChunk fuel failed rest s
        else matchChunk fuel (s.head? == some '/') rest s.tail
      else if c = '\\' then
        match rest with
        | [] => .error .errBadPattern
        | c2 :: rest2 =>
          if failed then matchChunk fuel failed rest2 s
          else matchChunk fuel (s.head? != some c2) rest2 s.tail
      else
        if failed then matchChunk fuel failed rest s
        else matchChunk fuel (s.head? != some c) rest s.tail

/-- The loop of `Match` that retries the chunk after skipping `i+1` characters of the
name, never across a separator.  `last` says that the pattern is used up. -/
def starLoop (chunk : List Char) (last : Bool) : List Char → Except MatchError (Option (List Char))
  | [] => .ok none
  | c :: rest =>
    if c = '/' then .ok none
    else
      match matchChunk (chunk.length + 1) false chunk rest with
      | .error e => .error e
      | .ok (some t) => if last ∧ t ≠ [] then starLoop chunk last rest else .ok (some t)
      | .ok none => starLoop chunk last rest

/-- The loop of `Match` that checks the unmatched rest of the pattern for syntax. -/
def checkRest : Nat → List Char → Except MatchError Bool
  | 0, _ => .error .outOfFuel
  | fuel + 1, pattern =>
    if pattern = [] then .ok false
    else
      let sc := scanChunk pattern
      match matchChunk (sc.2.1.length + 1) false sc.2.1 [] with
      | .error e => .error e
      | .ok _ => checkRest fuel sc.2.2

/-- The loop `Pattern:` of `Match`. -/
def matchLoop : Nat → List Char → List Char → Except MatchError Bool
  | 0, _, _ => .error .outOfFuel
  | fuel + 1, pattern, name =>
    if pattern = [] then .ok (decide (name = []))
    else
      let sc := scanChunk pattern
      let star := sc.1
      let chunk := sc.2.1
      let pattern1 := sc.2.2
      if star ∧ chunk = [] then .ok (!(name.contains '/'))
      else
        match matchChunk (chunk.length + 1) false chunk name with
        | .error e => .error e
        | .ok r =>
          match (match r with
                 | some t => if t = [] ∨ pattern1 ≠ [] then some t else none
                 | none => none) with
          | some t => matchLoop fuel pattern1 t
          | none =>
            match (if star then starLoop chunk (decide (pattern1 = [])) name else .ok none) with
            | .error e => .error e
            | .ok (some t) => matchLoop fuel pattern1 t
            | .ok none => checkRest (pattern1.length + 1) pattern1

/-- Library `filepath.Match(pattern, name)`. -/
def filepathMatch (pattern name : String) : Except MatchError Bool :=
  matchLoop (pattern.data.length + 1) pattern.data name.data

/-! ## Specification-side definitions and the inputs of the worked examples -/

/-- A registry that answers the first request of the run with 429 and every later one
with 200. -/
def throttledOnce : Registry := fun k _ => if k = 0 then Outcome.response 429 else Outcome.response 200

/-- The registry of the end-to-end example: 200 for acme/core, 404 for any other name. -/
def packagistMock : Registry :=
  fun _ name => if name = "acme/core" then Outcome.response 200 else Outcome.response 404

/-- The candidate list of the end-to-end example. -/
def exampleLookup : ComposerInstalledLookup :=
  ⟨["acme/test-helper", "acme/core", "ext-json", "acme/util"], false⟩

/-- The names a record contributes, in the spec's words: its own name, every key of
its require map, every key of its require-dev map. -/
def recordNames (r : ComposerInstalledRecord) : List String :=
  r.Name :: (r.Require.keys ++ r.RequireDev.keys)

/-- The names a record contributes in the order in which the loop body of record `i`
appends them. -/
def visited (ord : RangeOrder) (i : Nat) (r : ComposerInstalledRecord) : List String :=
  r.Name :: (ord.visit (2 * i) r.Require.keys ++ ord.visit (2 * i + 1) r.RequireDev.keys)

/-- The names appended by the record loop from index `i` on. -/
def visitedFrom (ord : RangeOrder) : Nat → ComposerInstalledJSON → List String
  | _, [] => []
  | i, r :: rs => visited ord i r ++ visitedFrom ord (i + 1) rs

/-- Every name of a record is non-empty. -/
def namesNonEmpty (r : ComposerInstalledRecord) : Prop :=
  1 ≤ r.Name.length ∧ (∀ k ∈ r.Require.keys, 1 ≤ k.length) ∧ ∀ k ∈ r.RequireDev.keys, 1 ≤ k.length

/-- The manifest `[{"require": {"left-pad": "^1.0.0"}}]`. -/
def leftPadDoc : RawFile :=
  some (.array [.object [("require", .object [("left-pad", .string "^1.0.0")])]])

/-- The manifest of the end-to-end example:
`{"packages":[{"name":"acme/core","require":{"ext-json":"*","acme/util":"1.0"}}],
"dev-package-names":["acme/test-helper"]}`. -/
def exampleDoc : RawFile :=
  some (.object
    [("packages", .array
        [.object [("name", .string "acme/core"),
          ("require", .object [("ext-json", .string "*"), ("acme/util", .string "1.0")])]]),
      ("dev-package-names", .array [.string "acme/test-helper"])])

/-- The manifest `[{}]`: one record without a name. -/
def namelessDoc : RawFile := some (.array [.object []])

/-- The manifest `{"packages":[{"name":"x","require":{"":"1"}}],"dev-package-names":[""]}`. -/
def emptyKeyDoc : RawFile :=
  some (.object
    [("packages", .array [.object [("name", .string "x"), ("require", .object [("", .string "1")])]]),
      ("dev-package-names", .array [.string ""])])

/-- Does the result of `filepath.Match` say "matched"?  An error does not. -/
def matched {E : Type} : Except E Bool → Bool
  | .ok true => true
  | _ => false

/-- The records `[{"name":"acme/core","require":{"ext-json":"*","acme/util":"1.0"}}]`:
one record whose require map has two keys. -/
def twoKeyRecords : List JSONValue :=
  [.object [("name", .string "acme/core"),
    ("require", .object [("ext-json", .string "*"), ("acme/util", .string "1.0")])]]

/-- The raw file `7`: valid JSON that is neither an array nor an object. -/
def numberDoc : RawFile := some (.number "7")

/-! ## The probe: lemmas -/

theorem isAvailableInPublic_platform (net : Registry) (pkgname : String) (retry : Int)
    (log : List String) (hr : ¬ retry > 3) (hp : HasPrefix pkgname "ext-" = true) :
    isAvailableInPublic net pkgname retry log = (true, log) := by
  rw [isAvailableInPublic]
  simp [hr, hp]

theorem isAvailableInPublic_exhausted (net : Registry) (pkgname : String) (retry : Int)
    (log : List String) (hr : retry > 3) :
    isAvailableInPublic net pkgname retry log = (false, log) := by
  rw [isAvailableInPublic]
  simp [hr]

theorem isAvailableInPublic_request (net : Registry) (pkgname : String) (retry : Int)
    (log : List String) (hr : ¬ retry > 3) (hp : HasPrefix pkgname "ext-" = false) :
    isAvailableInPublic net pkgname retry log =
      match net log.length pkgname with
      | .transportError => (false, log ++ [pkgname])
      | .response status =>
        if status = 200 then (true, log ++ [pkgname])
        else if status = 429 then
          (false, (isAvailableInPublic net pkgname (retry + 1) (log ++ [pkgname])).2)
        else (false, log ++ [pkgname]) := by
  rw [isAvailableInPublic]
  simp [hr, hp]

/-- A probe whose first request is not answered 429 makes that one request. -/
theorem isAvailableInPublic_single (net : Registry) (pkgname : String) (log : List String)
    (hp : HasPrefix pkgname "ext-" = false)
    (h429 : net log.length pkgname ≠ Outcome.response 429) :
    isAvailableInPublic net pkgname 0 log =
      (decide (net log.length pkgname = Outcome.response 200), log ++ [pkgname]) := by
  rw [isAvailableInPublic_request net pkgname 0 log (by decide) hp]
  cases hn : net log.length pkgname with
  | transportError => simp
  | response status =>
    rw [hn] at h429
    by_cases h200 : status = 200
    · simp [h200]
    · have h : status ≠ 429 := fun h => h429 (by rw [h])
      simp [h200, h]

/-- C2: for a name without the prefix "ext-", when the outcome of the first request is
not a 429 response, the probe started at retry count 0 makes exactly one request (the
log grows by the name) and returns true exactly when that outcome is a response with
status 200. -/
theorem C2_single_request (net : Registry) (pkgname : String) (log : List String)
    (hp : HasPrefix pkgname "ext-" = false)
    (h429 : net log.length pkgname ≠ Outcome.response 429) :
    isAvailableInPublic net pkgname 0 log =
      (decide (net log.length pkgname = Outcome.response 200), log ++ [pkgname]) :=
  isAvailableInPublic_single net pkgname log hp h429

/-- C3: for a name that starts with "ext-", the probe started at retry count 0 returns
true and leaves the request log as it was, whatever the registry answers. -/
theorem C3_platform_no_request (net : Registry) (pkgname : String) (log : List String)
    (hp : HasPrefix pkgname "ext-" = true) :
    isAvailableInPublic net pkgname 0 log = (true, log) :=
  isAvailableInPublic_platform net pkgname 0 log (by decide) hp

/-- Witness of C3 at the name ext-json and a registry that answers 404. -/
theorem C3_platform_no_request_witness :
    HasPrefix "ext-json" "ext-" = true ∧
      isAvailableInPublic (fun _ _ => Outcome.response 404) "ext-json" 0 [] = (true, []) :=
  ⟨by decide, C3_platform_no_request (fun _ _ => Outcome.response 404) "ext-json" [] (by decide)⟩

/-- C4: for a name without the prefix "ext-", if the registry answers every request
for it with 429, the probe started at retry count 0 makes exactly four requests and
returns false. -/
theorem C4_rate_limited_four_requests (net : Registry) (pkgname : String) (log : List String)
    (hp : HasPrefix pkgname "ext-" = false)
    (h429 : ∀ k, net k pkgname = Outcome.response 429) :
    isAvailableInPublic net pkgname 0 log =
      (false, log ++ [pkgname, pkgname, pkgname, pkgname]) := by
  rw [isAvailableInPublic_request net pkgname 0 log (by decide) hp, h429]
  rw [isAvailableInPublic_request net pkgname (0 + 1) _ (by decide) hp, h429]
  rw [isAvailableInPublic_request net pkgname (0 + 1 + 1) _ (by decide) hp, h429]
  rw [isAvailableInPublic_request net pkgname (0 + 1 + 1 + 1) _ (by decide) hp, h429]
  rw [isAvailableInPublic_exhausted net pkgname (0 + 1 + 1 + 1 + 1) _ (by decide)]
  simp

/-- Witness of C4 at the name acme/util. -/
theorem C4_rate_limited_four_requests_witness :
    isAvailableInPublic (fun _ _ => Outcome.response 429) "acme/util" 0 [] =
      (false, ["acme/util", "acme/util", "acme/util", "acme/util"]) :=
  C4_rate_limited_four_requests (fun _ _ => Outcome.response 429) "acme/util" []
    (by decide) (fun _ => rfl)

/-- C5, the code at the failing input: the first request for acme/core is answered 429,
the retry is answered 200, and the probe returns false after the two requests. -/
theorem C5_retry_result_discarded :
    throttledOnce 0 "acme/core" = Outcome.response 429 ∧
      throttledOnce 1 "acme/core" = Outcome.response 200 ∧
      isAvailableInPublic throttledOnce "acme/core" 0 [] = (false, ["acme/core", "acme/core"]) := by
  refine ⟨rfl, rfl, ?_⟩
  rw [isAvailableInPublic_request throttledOnce "acme/core" 0 [] (by decide) (by decide)]
  rw [isAvailableInPublic_request throttledOnce "acme/core" (0 + 1) _ (by decide) (by decide)]
  simp [throttledOnce]

/-- After a 429 answer to the first request the probe returns false, whatever the
later answers are. -/
theorem isAvailableInPublic_false_after_429 (net : Registry) (pkgname : String)
    (log : List String) (hp : HasPrefix pkgname "ext-" = false)
    (h429 : net log.length pkgname = Outcome.response 429) :
    (isAvailableInPublic net pkgname 0 log).1 = false := by
  rw [isAvailableInPublic_request net pkgname 0 log (by decide) hp, h429]
  simp

/-! ## PackagesNotInPublic: lemmas -/

theorem notInPublic_foldl_acc (net : Registry) (l : List String) (acc log : List String) :
    l.foldl (notInPublicStep net) (acc, log) =
      (acc ++ (l.foldl (notInPublicStep net) ([], log)).1,
        (l.foldl (notInPublicStep net) ([], log)).2) := by
  induction l generalizing acc log with
  | nil => simp
  | cons p l ih =>
    simp only [List.foldl_cons]
    by_cases hphp : p = "php"
    · simp only [notInPublicStep, hphp, if_true]
      exact ih acc log
    · by_cases hb : (isAvailableInPublic net p 0 log).1 = true
      · simp only [notInPublicStep, hphp, if_false, hb, Bool.not_true]
        exact ih _ _
      · have hb' : (isAvailableInPublic net p 0 log).1 = false := by simpa using hb
        simp only [notInPublicStep, hphp, if_false, hb', Bool.not_false, if_true]
        rw [ih (acc ++ [p]), ih ([] ++ [p])]
        simp

theorem PackagesNotInPublic_nil (net : Registry) (v : Bool) (log : List String) :
    PackagesNotInPublic net ⟨[], v⟩ log = ([], log) := rfl

theorem PackagesNotInPublic_cons (net : Registry) (v : Bool) (p : String) (l log : List String) :
    PackagesNotInPublic net ⟨p :: l, v⟩ log =
      if p = "php" then PackagesNotInPublic net ⟨l, v⟩ log
      else
        ((if (isAvailableInPublic net p 0 log).1 then [] else [p]) ++
            (PackagesNotInPublic net ⟨l, v⟩ (isAvailableInPublic net p 0 log).2).1,
          (PackagesNotInPublic net ⟨l, v⟩ (isAvailableInPublic net p 0 log).2).2) := by
  unfold PackagesNotInPublic
  simp only [List.foldl_cons]
  by_cases hphp : p = "php"
  · simp [notInPublicStep, hphp]
  · by_cases hb : (isAvailableInPublic net p 0 log).1 = true
    · simp [notInPublicStep, hphp, hb]
    · have hb' : (isAvailableInPublic net p 0 log).1 = false := by simpa using hb
      simp only [notInPublicStep, hphp, if_false, hb', Bool.not_false, if_true]
      rw [notInPublic_foldl_acc]
      simp

theorem PackagesNotInPublic_append (net : Registry) (v w : Bool) (l₁ l₂ log : List String) :
    PackagesNotInPublic net ⟨l₁ ++ l₂, v⟩ log =
      ((PackagesNotInPublic net ⟨l₁, w⟩ log).1 ++
          (PackagesNotInPublic net ⟨l₂, w⟩ (PackagesNotInPublic net ⟨l₁, w⟩ log).2).1,
        (PackagesNotInPublic net ⟨l₂, w⟩ (PackagesNotInPublic net ⟨l₁, w⟩ log).2).2) := by
  unfold PackagesNotInPublic
  simp only [List.foldl_append]
  rw [notInPublic_foldl_acc]

/-- The log of a probe started at retry count `retry` grows by copies of the name, and
by nothing for a name with the platform prefix. -/
theorem isAvailableInPublic_log (net : Registry) (pkgname : String) (n : Nat) :
    ∀ (retry : Int) (log : List String), (4 - retry).toNat ≤ n →
      ∃ m, (isAvailableInPublic net pkgname retry log).2 = log ++ List.replicate m pkgname ∧
        (HasPrefix pkgname "ext-" = true → m = 0) := by
  induction n with
  | zero =>
    intro retry log h
    have hr : retry > 3 := by omega
    exact ⟨0, by rw [isAvailableInPublic_exhausted net pkgname retry log hr]; simp, fun _ => rfl⟩
  | succ n ih =>
    intro retry log h
    by_cases hr : retry > 3
    · exact ⟨0, by rw [isAvailableInPublic_exhausted net pkgname retry log hr]; simp, fun _ => rfl⟩
    · cases hp : HasPrefix pkgname "ext-" with
      | true =>
        exact ⟨0, by rw [isAvailableInPublic_platform net pkgname retry log hr hp]; simp,
          fun _ => rfl⟩
      | false =>
        rw [isAvailableInPublic_request net pkgname retry log hr hp]
        cases net log.length pkgname with
        | transportError => exact ⟨1, by simp, by simp⟩
        | response status =>
          by_cases h200 : status = 200
          · exact ⟨1, by simp [h200], by simp⟩
          · by_cases h429 : status = 429
            · obtain ⟨m, hm, _⟩ := ih (retry + 1) (log ++ [pkgname]) (by omega)
              refine ⟨m + 1, ?_, by simp⟩
              simp only [h429, if_true, hm]
              simp [List.replicate_succ]
            · exact ⟨1, by simp [h200, h429], by simp⟩

theorem isAvailableInPublic_platform_verdict (net : Registry) (p : String) (log : List String)
    (h : (isAvailableInPublic net p 0 log).1 = false) : HasPrefix p "ext-" = false := by
  cases hp : HasPrefix p "ext-" with
  | false => rfl
  | true => rw [isAvailableInPublic_platform net p 0 log (by decide) hp] at h; simp at h

theorem PackagesNotInPublic_sublist (net : Registry) (v : Bool) (l : List String) :
    ∀ log, (PackagesNotInPublic net ⟨l, v⟩ log).1.Sublist l := by
  induction l with
  | nil => intro log; simp [PackagesNotInPublic_nil]
  | cons p l ih =>
    intro log
    rw [PackagesNotInPublic_cons]
    by_cases hphp : p = "php"
    · simp only [hphp, if_true]
      exact (ih log).cons _
    · simp only [hphp, if_false]
      cases hb : (isAvailableInPublic net p 0 log).1 with
      | true => simpa using (ih (isAvailableInPublic net p 0 log).2).cons p
      | false => simpa using (ih (isAvailableInPublic net p 0 log).2).cons₂ p

theorem PackagesNotInPublic_reported (net : Registry) (v : Bool) (l : List String) :
    ∀ log, ∀ x ∈ (PackagesNotInPublic net ⟨l, v⟩ log).1, x ≠ "php" ∧ HasPrefix x "ext-" = false := by
  induction l with
  | nil => intro log x hx; simp [PackagesNotInPublic_nil] at hx
  | cons p l ih =>
    intro log x hx
    rw [PackagesNotInPublic_cons] at hx
    by_cases hphp : p = "php"
    · simp only [hphp, if_true] at hx
      exact ih log x hx
    · simp only [hphp, if_false] at hx
      cases hb : (isAvailableInPublic net p 0 log).1 with
      | true =>
        rw [hb] at hx
        exact ih _ x (by simpa using hx)
      | false =>
        rw [hb] at hx
        simp only [Bool.false_eq_true, if_false, List.singleton_append, List.mem_cons] at hx
        rcases hx with rfl | hx
        · exact ⟨hphp, isAvailableInPublic_platform_verdict net x log hb⟩
        · exact ih _ x hx

theorem PackagesNotInPublic_requests (net : Registry) (v : Bool) (l : List String) :
    ∀ log, ∃ reqs, (PackagesNotInPublic net ⟨l, v⟩ log).2 = log ++ reqs ∧
      ∀ x ∈ reqs, x ∈ l ∧ x ≠ "php" ∧ HasPrefix x "ext-" = false := by
  induction l with
  | nil => intro log; exact ⟨[], by simp [PackagesNotInPublic_nil]⟩
  | cons p l ih =>
    intro log
    rw [PackagesNotInPublic_cons]
    by_cases hphp : p = "php"
    · simp only [hphp, if_true]
      obtain ⟨reqs, h1, h2⟩ := ih log
      exact ⟨reqs, h1, fun x hx => ⟨List.mem_cons_of_mem _ (h2 x hx).1, (h2 x hx).2⟩⟩
    · simp only [hphp, if_false]
      obtain ⟨m, hm, hm0⟩ := isAvailableInPublic_log net p 4 0 log (by decide)
      obtain ⟨reqs, h1, h2⟩ := ih (isAvailableInPublic net p 0 log).2
      refine ⟨List.replicate m p ++ reqs, ?_, ?_⟩
      · rw [h1, hm, List.append_assoc]
      · intro x hx
        rcases List.mem_append.1 hx with hx | hx
        · have hxp : x = p := List.eq_of_mem_replicate hx
          subst hxp
          refine ⟨List.mem_cons_self _ _, hphp, ?_⟩
          cases hp : HasPrefix x "ext-" with
          | false => rfl
          | true => rw [hm0 hp] at hx; simp at hx
        · exact ⟨List.mem_cons_of_mem _ (h2 x hx).1, (h2 x hx).2⟩

theorem isAvailableInPublic_stationary (net : Registry) (h : ∀ k name, net k name = net 0 name)
    (p : String) (log : List String) :
    (isAvailableInPublic net p 0 log).1 = (isAvailableInPublic net p 0 []).1 := by
  cases hp : HasPrefix p "ext-" with
  | true =>
    rw [isAvailableInPublic_platform net p 0 log (by decide) hp,
      isAvailableInPublic_platform net p 0 [] (by decide) hp]
  | false =>
    rw [isAvailableInPublic_request net p 0 log (by decide) hp,
      isAvailableInPublic_request net p 0 [] (by decide) hp, h log.length p, h ([] : List String).length p]
    cases net 0 p with
    | transportError => rfl
    | response status =>
      by_cases h200 : status = 200
      · simp [h200]
      · by_cases h429 : status = 429
        · simp [h429]
        · simp [h200, h429]

theorem PackagesNotInPublic_stationary (net : Registry) (h : ∀ k name, net k name = net 0 name)
    (v : Bool) (l : List String) :
    ∀ log, (PackagesNotInPublic net ⟨l, v⟩ log).1 =
      l.filter (fun p => decide (p ≠ "php") && !(isAvailableInPublic net p 0 []).1) := by
  induction l with
  | nil => intro log; simp [PackagesNotInPublic_nil]
  | cons p l ih =>
    intro log
    rw [PackagesNotInPublic_cons]
    by_cases hphp : p = "php"
    · simp only [hphp, if_true]
      rw [ih log]
      simp [List.filter_cons]
    · simp only [hphp, if_false, ih]
      rw [isAvailableInPublic_stationary net h p log]
      cases hb : (isAvailableInPublic net p 0 []).1 with
      | true => simp [List.filter_cons, hphp, hb]
      | false => simp [List.filter_cons, hphp, hb]

/-- C7: `PackagesNotInPublic` reports, in candidate order and once per occurrence,
exactly the candidates that are not "php" and whose probe, started at retry count 0
when their turn comes, returns false.  Hence the report is a sublist of the
candidates, holds no "php" and no name starting with "ext-", and no request is made
for such a name; for a registry whose answer depends on the name only, the report is
the candidate list filtered by the probe's verdict. -/
theorem C7_packages_not_in_public (net : Registry) (c : ComposerInstalledLookup)
    (log : List String) :
    (∀ pre p post, c.Packages = pre ++ p :: post →
        (PackagesNotInPublic net c log).1 =
          (PackagesNotInPublic net ⟨pre, c.Verbose⟩ log).1 ++
            (if p ≠ "php" ∧
                (isAvailableInPublic net p 0 (PackagesNotInPublic net ⟨pre, c.Verbose⟩ log).2).1
                  = false
              then [p] else []) ++
            (PackagesNotInPublic net ⟨post, c.Verbose⟩
              (if p = "php" then (PackagesNotInPublic net ⟨pre, c.Verbose⟩ log).2
                else (isAvailableInPublic net p 0
                  (PackagesNotInPublic net ⟨pre, c.Verbose⟩ log).2).2)).1) ∧
      (PackagesNotInPublic net c log).1.Sublist c.Packages ∧
      (∀ x ∈ (PackagesNotInPublic net c log).1, x ≠ "php" ∧ HasPrefix x "ext-" = false) ∧
      (∃ reqs, (PackagesNotInPublic net c log).2 = log ++ reqs ∧
        ∀ x ∈ reqs, x ∈ c.Packages ∧ x ≠ "php" ∧ HasPrefix x "ext-" = false) ∧
      ((∀ k name, net k name = net 0 name) →
        (PackagesNotInPublic net c log).1 =
          c.Packages.filter
            (fun p => decide (p ≠ "php") && !(isAvailableInPublic net p 0 []).1)) := by
  obtain ⟨l, v⟩ := c
  refine ⟨?_, PackagesNotInPublic_sublist net v l log, PackagesNotInPublic_reported net v l log,
    PackagesNotInPublic_requests net v l log,
    fun h => PackagesNotInPublic_stationary net h v l log⟩
  intro pre p post hl
  simp only at hl
  subst hl
  rw [PackagesNotInPublic_append net v v pre (p :: post) log, PackagesNotInPublic_cons]
  by_cases hphp : p = "php"
  · simp [hphp]
  · cases hb : (isAvailableInPublic net p 0 (PackagesNotInPublic net ⟨pre, v⟩ log).2).1 with
    | true => simp [hphp, hb]
    | false => simp [hphp, hb]

theorem packagistMock_run :
    PackagesNotInPublic packagistMock exampleLookup [] =
      (["acme/test-helper", "acme/util"], ["acme/test-helper", "acme/core", "acme/util"]) := by
  have e1 : isAvailableInPublic packagistMock "acme/test-helper" 0 [] =
      (false, ["acme/test-helper"]) := by
    rw [isAvailableInPublic_single packagistMock "acme/test-helper" [] (by decide) (by decide)]
    decide
  have e2 : isAvailableInPublic packagistMock "acme/core" 0 ["acme/test-helper"] =
      (true, ["acme/test-helper", "acme/core"]) := by
    rw [isAvailableInPublic_single packagistMock "acme/core" _ (by decide) (by decide)]
    decide
  have e3 : isAvailableInPublic packagistMock "ext-json" 0 ["acme/test-helper", "acme/core"] =
      (true, ["acme/test-helper", "acme/core"]) :=
    isAvailableInPublic_platform packagistMock "ext-json" 0 _ (by decide) (by decide)
  have e4 : isAvailableInPublic packagistMock "acme/util" 0 ["acme/test-helper", "acme/core"] =
      (false, ["acme/test-helper", "acme/core", "acme/util"]) := by
    rw [isAvailableInPublic_single packagistMock "acme/util" _ (by decide) (by decide)]
    decide
  have h4 : PackagesNotInPublic packagistMock ⟨["acme/util"], false⟩
      ["acme/test-helper", "acme/core"] =
      (["acme/util"], ["acme/test-helper", "acme/core", "acme/util"]) := by
    rw [PackagesNotInPublic_cons, if_neg (by decide), e4, PackagesNotInPublic_nil]
    rfl
  have h3 : PackagesNotInPublic packagistMock ⟨["ext-json", "acme/util"], false⟩
      ["acme/test-helper", "acme/core"] =
      (["acme/util"], ["acme/test-helper", "acme/core", "acme/util"]) := by
    rw [PackagesNotInPublic_cons, if_neg (by decide), e3]
    dsimp only
    rw [h4]
    rfl
  have h2 : PackagesNotInPublic packagistMock ⟨["acme/core", "ext-json", "acme/util"], false⟩
      ["acme/test-helper"] =
      (["acme/util"], ["acme/test-helper", "acme/core", "acme/util"]) := by
    rw [PackagesNotInPublic_cons, if_neg (by decide), e2]
    dsimp only
    rw [h3]
    rfl
  unfold exampleLookup
  rw [PackagesNotInPublic_cons, if_neg (by decide), e1]
  dsimp only
  rw [h2]
  rfl

/-- Witness of C7 on the end-to-end example: the candidates acme/test-helper, acme/core,
ext-json, acme/util against a registry that answers 200 for acme/core and 404
otherwise. -/
theorem C7_packages_not_in_public_witness :
    (∀ k name, packagistMock k name = packagistMock 0 name) ∧
      (PackagesNotInPublic packagistMock exampleLookup []).1 =
        exampleLookup.Packages.filter
          (fun p => decide (p ≠ "php") && !(isAvailableInPublic packagistMock p 0 []).1) ∧
      (PackagesNotInPublic packagistMock exampleLookup []).1 =
        (PackagesNotInPublic packagistMock ⟨["acme/test-helper", "acme/core"], false⟩ []).1 ++
          (if "ext-json" ≠ "php" ∧
              (isAvailableInPublic packagistMock "ext-json" 0
                (PackagesNotInPublic packagistMock ⟨["acme/test-helper", "acme/core"], false⟩ []).2).1
                = false
            then ["ext-json"] else []) ++
          (PackagesNotInPublic packagistMock ⟨["acme/util"], false⟩
            (if "ext-json" = "php"
              then (PackagesNotInPublic packagistMock ⟨["acme/test-helper", "acme/core"], false⟩ []).2
              else (isAvailableInPublic packagistMock "ext-json" 0
                (PackagesNotInPublic packagistMock
                  ⟨["acme/test-helper", "acme/core"], false⟩ []).2).2)).1 ∧
      PackagesNotInPublic packagistMock exampleLookup [] =
        (["acme/test-helper", "acme/util"], ["acme/test-helper", "acme/core", "acme/util"]) :=
  ⟨fun _ _ => rfl,
    (C7_packages_not_in_public packagistMock exampleLookup []).2.2.2.2 (fun _ _ => rfl),
    (C7_packages_not_in_public packagistMock exampleLookup []).1
      ["acme/test-helper", "acme/core"] "ext-json" ["acme/util"] rfl,
    packagistMock_run⟩

/-- Witness of C2: a 404 answer for acme/util gives false after one request. -/
theorem C2_single_request_witness :
    isAvailableInPublic packagistMock "acme/util" 0 [] = (false, ["acme/util"]) :=
  C2_single_request packagistMock "acme/util" [] (by decide) (by decide)

/-! ## ReadPackagesFromFile: lemmas -/

theorem appendEach_eq (pk xs : List String) : appendEach pk xs = pk ++ xs := by
  unfold appendEach
  induction xs generalizing pk with
  | nil => simp
  | cons x xs ih => simp [List.foldl_cons, ih]

theorem appendRecords_eq (ord : RangeOrder) (rs : ComposerInstalledJSON) :
    ∀ (i : Nat) (pk : List String), appendRecords ord i rs pk = pk ++ visitedFrom ord i rs := by
  induction rs with
  | nil => intro i pk; simp [appendRecords, visitedFrom]
  | cons r rs ih =>
    intro i pk
    simp [appendRecords, visitedFrom, visited, appendEach_eq, ih]

theorem visited_perm (ord : RangeOrder) (i : Nat) (r : ComposerInstalledRecord) :
    (visited ord i r).Perm (recordNames r) :=
  List.Perm.cons _ (List.Perm.append (ord.isPerm _ _) (ord.isPerm _ _))

theorem visitedFrom_perm (ord : RangeOrder) (rs : ComposerInstalledJSON) :
    ∀ i, (visitedFrom ord i rs).Perm (rs.flatMap recordNames) := by
  induction rs with
  | nil => intro i; simp [visitedFrom]
  | cons r rs ih =>
    intro i
    simp only [visitedFrom, List.flatMap_cons]
    exact List.Perm.append (visited_perm ord i r) (ih (i + 1))

theorem recordNames_length_sum (rs : ComposerInstalledJSON) :
    (rs.flatMap recordNames).length =
      (rs.map (fun r => 1 + r.Require.length + r.RequireDev.length)).sum := by
  induction rs with
  | nil => rfl
  | cons r rs ih =>
    simp only [List.flatMap_cons, List.length_append, List.map_cons, List.sum_cons, ih]
    simp [recordNames, GoMap.keys]
    omega

theorem ReadPackagesFromFile_vendor {Raw E : Type}
    (uv : Raw → Except E ComposerInstalledJSON) (up : Raw → Except E ComposerInstalledJSONPkg)
    (ord : RangeOrder) (c : ComposerInstalledLookup) (raw : Raw) (data : ComposerInstalledJSON)
    (h : uv raw = .ok data) :
    ReadPackagesFromFile uv up ord c raw =
      (none, { c with Packages := c.Packages ++ visitedFrom ord 0 data }) := by
  simp [ReadPackagesFromFile, h, appendRecords_eq]

theorem ReadPackagesFromFile_pkg {Raw E : Type}
    (uv : Raw → Except E ComposerInstalledJSON) (up : Raw → Except E ComposerInstalledJSONPkg)
    (ord : RangeOrder) (c : ComposerInstalledLookup) (raw : Raw) (e : E)
    (data2 : ComposerInstalledJSONPkg) (h1 : uv raw = .error e) (h2 : up raw = .ok data2) :
    ReadPackagesFromFile uv up ord c raw =
      (none, { c with
        Packages := c.Packages ++ (data2.DevPackages ++ visitedFrom ord 0 data2.Packages) }) := by
  simp [ReadPackagesFromFile, h1, h2, appendRecords_eq, appendEach_eq]

theorem ReadPackagesFromFile_fail {Raw E : Type}
    (uv : Raw → Except E ComposerInstalledJSON) (up : Raw → Except E ComposerInstalledJSONPkg)
    (ord : RangeOrder) (c : ComposerInstalledLookup) (raw : Raw) (e e2 : E)
    (h1 : uv raw = .error e) (h2 : up raw = .error e2) :
    ReadPackagesFromFile uv up ord c raw = (some e2, c) := by
  simp [ReadPackagesFromFile, h1, h2]

/-- C1: when the manifest decodes, `ReadPackagesFromFile` returns no error and appends
to the candidate list a permutation of: (shape 2 only) the entries of
dev-package-names, and for every record its name, the keys of its require map and the
keys of its require-dev map.  The number of appended candidates is
len(dev-package-names) + the sum over the records of 1 + |require| + |require-dev|. -/
theorem C1_appended_candidates {Raw E : Type}
    (uv : Raw → Except E ComposerInstalledJSON) (up : Raw → Except E ComposerInstalledJSONPkg)
    (ord : RangeOrder) (c : ComposerInstalledLookup) (raw : Raw) :
    (∀ data, uv raw = .ok data →
      ∃ app, ReadPackagesFromFile uv up ord c raw =
          (none, { c with Packages := c.Packages ++ app }) ∧
        app.Perm (data.flatMap recordNames) ∧
        app.length = (data.map (fun r => 1 + r.Require.length + r.RequireDev.length)).sum) ∧
    (∀ e data2, uv raw = .error e → up raw = .ok data2 →
      ∃ app, ReadPackagesFromFile uv up ord c raw =
          (none, { c with Packages := c.Packages ++ app }) ∧
        app.Perm (data2.DevPackages ++ data2.Packages.flatMap recordNames) ∧
        app.length = data2.DevPackages.length +
          (data2.Packages.map (fun r => 1 + r.Require.length + r.RequireDev.length)).sum) := by
  constructor
  · intro data h
    refine ⟨visitedFrom ord 0 data, ReadPackagesFromFile_vendor uv up ord c raw data h,
      visitedFrom_perm ord data 0, ?_⟩
    rw [(visitedFrom_perm ord data 0).length_eq, recordNames_length_sum]
  · intro e data2 h1 h2
    refine ⟨data2.DevPackages ++ visitedFrom ord 0 data2.Packages,
      ReadPackagesFromFile_pkg uv up ord c raw e data2 h1 h2,
      List.Perm.append (List.Perm.refl _) (visitedFrom_perm ord data2.Packages 0), ?_⟩
    rw [List.length_append, (visitedFrom_perm ord data2.Packages 0).length_eq,
      recordNames_length_sum]

/-- C9: shape (1) is tried first and, when it decodes, the result does not depend on
the shape (2) decoder; shape (2) is used when shape (1) fails; an error is returned
exactly when the input decodes as neither shape, and then the resolver is left as it
was. -/
theorem C9_shape_order_and_error {Raw E : Type}
    (uv : Raw → Except E ComposerInstalledJSON) (up : Raw → Except E ComposerInstalledJSONPkg)
    (ord : RangeOrder) (c : ComposerInstalledLookup) (raw : Raw) :
    (∀ data, uv raw = .ok data →
      ∀ up' : Raw → Except E ComposerInstalledJSONPkg,
        ReadPackagesFromFile uv up' ord c raw =
          (none, { c with Packages := appendRecords ord 0 data c.Packages })) ∧
    (∀ e data2, uv raw = .error e → up raw = .ok data2 →
      ReadPackagesFromFile uv up ord c raw =
        (none, { c with
          Packages := appendRecords ord 0 data2.Packages (appendEach c.Packages data2.DevPackages) })) ∧
    ((ReadPackagesFromFile uv up ord c raw).1 ≠ none ↔
      (∃ e, uv raw = .error e) ∧ ∃ e2, up raw = .error e2) ∧
    ((ReadPackagesFromFile uv up ord c raw).1 ≠ none →
      (ReadPackagesFromFile uv up ord c raw).2 = c) := by
  refine ⟨?_, ?_, ?_, ?_⟩
  · intro data h up'
    simp [ReadPackagesFromFile, h]
  · intro e data2 h1 h2
    simp [ReadPackagesFromFile, h1, h2]
  · cases h1 : uv raw with
    | ok data => simp [ReadPackagesFromFile, h1]
    | error e =>
      cases h2 : up raw with
      | ok data2 => simp [ReadPackagesFromFile, h1, h2]
      | error e2 => simp [ReadPackagesFromFile, h1, h2]
  · cases h1 : uv raw with
    | ok data => simp [ReadPackagesFromFile, h1]
    | error e =>
      cases h2 : up raw with
      | ok data2 => simp [ReadPackagesFromFile, h1, h2]
      | error e2 => simp [ReadPackagesFromFile, h1, h2]

theorem visitedFrom_nonEmpty (ord : RangeOrder) (rs : ComposerInstalledJSON)
    (h : ∀ r ∈ rs, namesNonEmpty r) (i : Nat) : ∀ s ∈ visitedFrom ord i rs, 1 ≤ s.length := by
  intro s hs
  have hs' : s ∈ rs.flatMap recordNames := (visitedFrom_perm ord rs i).mem_iff.1 hs
  obtain ⟨r, hr, hsr⟩ := List.mem_flatMap.1 hs'
  obtain ⟨hn, hq, hd⟩ := h r hr
  simp only [recordNames, List.mem_cons, List.mem_append] at hsr
  rcases hsr with rfl | hsr | hsr
  · exact hn
  · exact hq s hsr
  · exact hd s hsr

/-- C10 as amended: the parser appends names as they are decoded.  When every record's
name, every key of every require / require-dev map and every entry of
dev-package-names in the decoded manifest is non-empty, every string appended by a
successful `ReadPackagesFromFile` has length at least 1. -/
theorem C10_nonempty_names_preserved {Raw E : Type}
    (uv : Raw → Except E ComposerInstalledJSON) (up : Raw → Except E ComposerInstalledJSONPkg)
    (ord : RangeOrder) (c : ComposerInstalledLookup) (raw : Raw)
    (h1 : ∀ data, uv raw = .ok data → ∀ r ∈ data, namesNonEmpty r)
    (h2 : ∀ e data2, uv raw = .error e → up raw = .ok data2 →
      (∀ s ∈ data2.DevPackages, 1 ≤ s.length) ∧ ∀ r ∈ data2.Packages, namesNonEmpty r)
    (hok : (ReadPackagesFromFile uv up ord c raw).1 = none) :
    ∃ app, (ReadPackagesFromFile uv up ord c raw).2.Packages = c.Packages ++ app ∧
      ∀ s ∈ app, 1 ≤ s.length := by
  cases hv : uv raw with
  | ok data =>
    refine ⟨visitedFrom ord 0 data, ?_, visitedFrom_nonEmpty ord data (h1 data hv) 0⟩
    rw [ReadPackagesFromFile_vendor uv up ord c raw data hv]
  | error e =>
    cases hp : up raw with
    | ok data2 =>
      obtain ⟨hd, hr⟩ := h2 e data2 hv hp
      refine ⟨data2.DevPackages ++ visitedFrom ord 0 data2.Packages, ?_, ?_⟩
      · rw [ReadPackagesFromFile_pkg uv up ord c raw e data2 hv hp]
      · intro s hs
        rcases List.mem_append.1 hs with hs | hs
        · exact hd s hs
        · exact visitedFrom_nonEmpty ord data2.Packages hr 0 s hs
    | error e2 =>
      rw [ReadPackagesFromFile_fail uv up ord c raw e e2 hv hp] at hok
      simp at hok

/-! ## The decoder model: lemmas -/

theorem storeElems_length {α : Type} (store : α → JSONValue → Except JSONError α) (zero : α)
    (es : List JSONValue) :
    ∀ b, storeElems store zero [] es = .ok b → b.length = es.length := by
  induction es with
  | nil => intro b h; simp [storeElems] at h; subst h; rfl
  | cons e es ih =>
    intro b h
    simp only [storeElems] at h
    cases hx : store zero e with
    | error err => rw [hx] at h; simp at h
    | ok x =>
      rw [hx] at h
      cases hxs : storeElems store zero [] es with
      | error err => rw [hxs] at h; simp [Except.map] at h
      | ok xs =>
        rw [hxs] at h
        simp [Except.map] at h
        subst h
        simp [ih xs hxs]

theorem jsonUnmarshalVendor_array (rs : List JSONValue) :
    jsonUnmarshalVendor (some (.array rs)) =
      storeElems storeRecord ComposerInstalledRecord.zero [] rs := by
  cases rs with
  | nil => rfl
  | cons e es =>
    simp only [jsonUnmarshalVendor, storeSlice]
    cases h : storeElems storeRecord ComposerInstalledRecord.zero [] (e :: es) with
    | error err => rfl
    | ok b =>
      have hl := storeElems_length storeRecord ComposerInstalledRecord.zero (e :: es) b h
      simp [Except.map, GoSlice.elems, ← hl]

theorem jsonUnmarshalPkg_packages (rs : List JSONValue) :
    jsonUnmarshalPkg (some (.object [("packages", .array rs)])) =
      (storeElems storeRecord ComposerInstalledRecord.zero [] rs).map
        (fun recs => ⟨recs, []⟩) := by
  have hm : fieldMatches "packages" "packages" = true := by decide
  cases rs with
  | nil => simp [jsonUnmarshalPkg, storePkgField, hm, storeSlice, storeElems, GoSlice.elems,
      GoSlice.nil, Except.map, List.foldlM, bind, Except.bind, pure, Except.pure]
  | cons e es =>
    simp only [jsonUnmarshalPkg, List.foldlM, storePkgField, hm, if_true, storeSlice, GoSlice.nil]
    cases h : storeElems storeRecord ComposerInstalledRecord.zero [] (e :: es) with
    | error err => simp [Except.map, bind, Except.bind]
    | ok b =>
      have hl := storeElems_length storeRecord ComposerInstalledRecord.zero (e :: es) b h
      simp [Except.map, GoSlice.elems, bind, Except.bind, pure, Except.pure, ← hl]

theorem jsonUnmarshalPkg_packages_dev (rs : List JSONValue) :
    jsonUnmarshalPkg
        (some (.object [("packages", .array rs), ("dev-package-names", .array [])])) =
      (storeElems storeRecord ComposerInstalledRecord.zero [] rs).map
        (fun recs => ⟨recs, []⟩) := by
  have hm : fieldMatches "packages" "packages" = true := by decide
  have hm1 : fieldMatches "dev-package-names" "packages" = false := by decide
  have hm2 : fieldMatches "dev-package-names" "dev-package-names" = true := by decide
  cases rs with
  | nil => simp [jsonUnmarshalPkg, storePkgField, hm, hm1, hm2, storeSlice, storeElems,
      GoSlice.elems, GoSlice.nil, Except.map, List.foldlM, bind, Except.bind, pure, Except.pure]
  | cons e es =>
    simp only [jsonUnmarshalPkg, List.foldlM, storePkgField, hm, if_true, storeSlice, GoSlice.nil]
    cases h : storeElems storeRecord ComposerInstalledRecord.zero [] (e :: es) with
    | error err => simp [Except.map, bind, Except.bind]
    | ok b =>
      have hl := storeElems_length storeRecord ComposerInstalledRecord.zero (e :: es) b h
      simp [Except.map, GoSlice.elems, bind, Except.bind, pure, Except.pure, ← hl,
        hm1, hm2]

theorem readInstalled_array (ord : RangeOrder) (c : ComposerInstalledLookup)
    (rs : List JSONValue) :
    readInstalled ord c (some (.array rs)) =
      match storeElems storeRecord ComposerInstalledRecord.zero [] rs with
      | .ok recs => (none, { c with Packages := appendRecords ord 0 recs c.Packages })
      | .error _ => (some .unmarshalTypeError, c) := by
  unfold readInstalled ReadPackagesFromFile
  rw [jsonUnmarshalVendor_array]
  cases storeElems storeRecord ComposerInstalledRecord.zero [] rs with
  | ok recs => rfl
  | error err => rfl

theorem readInstalled_object (ord : RangeOrder) (c : ComposerInstalledLookup)
    (ms : List (String × JSONValue)) :
    readInstalled ord c (some (.object ms)) =
      match jsonUnmarshalPkg (some (.object ms)) with
      | .ok data2 =>
        (none, { c with
          Packages := appendRecords ord 0 data2.Packages (appendEach c.Packages data2.DevPackages) })
      | .error err2 => (some err2, c) := by
  unfold readInstalled ReadPackagesFromFile
  have h : jsonUnmarshalVendor (some (.object ms)) = .error .unmarshalTypeError := rfl
  rw [h]
  cases jsonUnmarshalPkg (some (.object ms)) with
  | ok data2 => rfl
  | error err => rfl

theorem readInstalled_shapes_same_order (ord : RangeOrder) (verbose : Bool)
    (rs : List JSONValue) :
    (readInstalled ord (NewComposerInstalledLookup verbose) (some (.array rs))).2.Packages =
        (readInstalled ord (NewComposerInstalledLookup verbose)
          (some (.object [("packages", .array rs)]))).2.Packages ∧
      (readInstalled ord (NewComposerInstalledLookup verbose) (some (.array rs))).1.isSome =
        (readInstalled ord (NewComposerInstalledLookup verbose)
          (some (.object [("packages", .array rs)]))).1.isSome := by
  rw [readInstalled_array, readInstalled_object, jsonUnmarshalPkg_packages]
  cases storeElems storeRecord ComposerInstalledRecord.zero [] rs with
  | ok recs => simp [Except.map, appendEach, NewComposerInstalledLookup]
  | error err => simp [Except.map]

theorem readInstalled_shapes_same_order_dev (ord : RangeOrder) (verbose : Bool)
    (rs : List JSONValue) :
    (readInstalled ord (NewComposerInstalledLookup verbose) (some (.array rs))).2.Packages =
        (readInstalled ord (NewComposerInstalledLookup verbose)
          (some (.object [("packages", .array rs), ("dev-package-names", .array [])]))).2.Packages ∧
      (readInstalled ord (NewComposerInstalledLookup verbose) (some (.array rs))).1.isSome =
        (readInstalled ord (NewComposerInstalledLookup verbose)
          (some (.object [("packages", .array rs), ("dev-package-names", .array [])]))).1.isSome := by
  rw [readInstalled_array, readInstalled_object, jsonUnmarshalPkg_packages_dev]
  cases storeElems storeRecord ComposerInstalledRecord.zero [] rs with
  | ok recs => simp [Except.map, appendEach, NewComposerInstalledLookup]
  | error err => simp [Except.map]

theorem readInstalled_shapes_perm (ord ord' : RangeOrder) (verbose : Bool) (rs : List JSONValue) :
    (readInstalled ord (NewComposerInstalledLookup verbose) (some (.array rs))).2.Packages.Perm
      (readInstalled ord' (NewComposerInstalledLookup verbose)
        (some (.object [("packages", .array rs)]))).2.Packages := by
  rw [readInstalled_array, readInstalled_object, jsonUnmarshalPkg_packages]
  cases storeElems storeRecord ComposerInstalledRecord.zero [] rs with
  | ok recs =>
    simp only [Except.map, appendEach, NewComposerInstalledLookup, appendRecords_eq,
      List.foldl_nil, List.nil_append]
    exact (visitedFrom_perm ord recs 0).trans (visitedFrom_perm ord' recs 0).symm
  | error err => simp [Except.map]

/-- C8 as amended: for every list of records, the shape (1) manifest (the array of the
records) and the shape (2) manifest with the same records (its packages array; no dev
names, as shape (1) has none: dev-package-names absent or empty), each read into a
fresh resolver, give candidate lists that are permutations of each other, whatever
the orders `ord` and `ord'` in which the two reads visit the keys of the maps; the
two lists are identical when both reads visit the keys in the same order, and either
both reads fail or both succeed. -/
theorem C8_shapes_agree_up_to_order (verbose : Bool) (rs : List JSONValue) :
    (∀ ord : RangeOrder,
      ((readInstalled ord (NewComposerInstalledLookup verbose) (some (.array rs))).2.Packages =
          (readInstalled ord (NewComposerInstalledLookup verbose)
            (some (.object [("packages", .array rs)]))).2.Packages ∧
        (readInstalled ord (NewComposerInstalledLookup verbose) (some (.array rs))).1.isSome =
          (readInstalled ord (NewComposerInstalledLookup verbose)
            (some (.object [("packages", .array rs)]))).1.isSome) ∧
      ((readInstalled ord (NewComposerInstalledLookup verbose) (some (.array rs))).2.Packages =
          (readInstalled ord (NewComposerInstalledLookup verbose)
            (some (.object
              [("packages", .array rs), ("dev-package-names", .array [])]))).2.Packages ∧
        (readInstalled ord (NewComposerInstalledLookup verbose) (some (.array rs))).1.isSome =
          (readInstalled ord (NewComposerInstalledLookup verbose)
            (some (.object
              [("packages", .array rs), ("dev-package-names", .array [])]))).1.isSome)) ∧
    (∀ ord ord' : RangeOrder,
      (readInstalled ord (NewComposerInstalledLookup verbose) (some (.array rs))).2.Packages.Perm
        (readInstalled ord' (NewComposerInstalledLookup verbose)
          (some (.object [("packages", .array rs)]))).2.Packages) :=
  ⟨fun ord => ⟨readInstalled_shapes_same_order ord verbose rs,
      readInstalled_shapes_same_order_dev ord verbose rs⟩,
    fun ord ord' => readInstalled_shapes_perm ord ord' verbose rs⟩

/-- C8 fails as stated: the shape (1) manifest of a record with a two-key require map,
read while the runtime visits the keys in stored order, and the shape (2) manifest of
the same record, read while it visits them in reverse order, give different
candidate lists. -/
theorem C8_identical_lists_counterexample :
    (readInstalled RangeOrder.stored (NewComposerInstalledLookup false)
        (some (.array twoKeyRecords))).2.Packages = ["acme/core", "ext-json", "acme/util"] ∧
      (readInstalled RangeOrder.reversed (NewComposerInstalledLookup false)
        (some (.object [("packages", .array twoKeyRecords)]))).2.Packages =
        ["acme/core", "acme/util", "ext-json"] ∧
      (readInstalled RangeOrder.stored (NewComposerInstalledLookup false)
        (some (.array twoKeyRecords))).2.Packages ≠
      (readInstalled RangeOrder.reversed (NewComposerInstalledLookup false)
        (some (.object [("packages", .array twoKeyRecords)]))).2.Packages := by
  refine ⟨by decide, by decide, by decide⟩

/-- The two iteration orders can give different lists for one and the same manifest. -/
theorem readInstalled_order_matters :
    (readInstalled RangeOrder.stored (NewComposerInstalledLookup false) exampleDoc).2.Packages =
        ["acme/test-helper", "acme/core", "ext-json", "acme/util"] ∧
      (readInstalled RangeOrder.reversed (NewComposerInstalledLookup false) exampleDoc).2.Packages =
        ["acme/test-helper", "acme/core", "acme/util", "ext-json"] := by
  constructor <;> decide

/-- Witness of C1: the manifest whose only record has the require map
`{"left-pad": "^1.0.0"}` (shape 1), and the end-to-end manifest (shape 2). -/
theorem C1_appended_candidates_witness :
    (∃ app, ReadPackagesFromFile jsonUnmarshalVendor jsonUnmarshalPkg RangeOrder.stored
          (NewComposerInstalledLookup false) leftPadDoc =
          (none, { NewComposerInstalledLookup false with
            Packages := (NewComposerInstalledLookup false).Packages ++ app }) ∧
        app.Perm (List.flatMap [⟨"", [("left-pad", "^1.0.0")], []⟩] recordNames) ∧
        app.length = 2) ∧
    (∃ app, ReadPackagesFromFile jsonUnmarshalVendor jsonUnmarshalPkg RangeOrder.stored
          (NewComposerInstalledLookup false) exampleDoc =
          (none, { NewComposerInstalledLookup false with
            Packages := (NewComposerInstalledLookup false).Packages ++ app }) ∧
        app.Perm (["acme/test-helper"] ++
          List.flatMap [⟨"acme/core", [("ext-json", "*"), ("acme/util", "1.0")], []⟩] recordNames) ∧
        app.length = 1 + 3) :=
  ⟨(C1_appended_candidates jsonUnmarshalVendor jsonUnmarshalPkg RangeOrder.stored
      (NewComposerInstalledLookup false) leftPadDoc).1
      [⟨"", [("left-pad", "^1.0.0")], []⟩] rfl,
    (C1_appended_candidates jsonUnmarshalVendor jsonUnmarshalPkg RangeOrder.stored
      (NewComposerInstalledLookup false) exampleDoc).2 JSONError.unmarshalTypeError
      ⟨[⟨"acme/core", [("ext-json", "*"), ("acme/util", "1.0")], []⟩], ["acme/test-helper"]⟩
      rfl rfl⟩

/-! ## removeSafe: lemmas -/

theorem ignoredBy_foldl {E : Type} (Match : String → String → Except E Bool) (p : String)
    (ns : List String) (acc : Bool) :
    ns.foldl
        (fun ignored s =>
          match Match s p with
          | .error _ => ignored
          | .ok ok => if ok then true else ignored)
        acc =
      (acc || ns.any (fun s => matched (Match s p))) := by
  induction ns generalizing acc with
  | nil => simp
  | cons s ns ih =>
    simp only [List.foldl_cons, List.any_cons, ih]
    cases hm : Match s p with
    | error e => simp [matched]
    | ok b => cases b <;> cases acc <;> simp [matched]

theorem ignoredBy_eq_any {E : Type} (Match : String → String → Except E Bool)
    (ns : List String) (p : String) :
    ignoredBy Match ns p = ns.any (fun s => matched (Match s p)) := by
  unfold ignoredBy
  rw [ignoredBy_foldl]
  simp

theorem foldl_append_map {α β : Type} (f : α → β) (l : List α) (acc : List β) :
    l.foldl (fun acc s => acc ++ [f s]) acc = acc ++ l.map f := by
  induction l generalizing acc with
  | nil => simp
  | cons a l ih => simp [ih]

theorem foldl_append_filter {α : Type} (q : α → Bool) (l : List α) (acc : List α) :
    l.foldl (fun ret p => if !(q p) then ret ++ [p] else ret) acc =
      acc ++ l.filter (fun p => !(q p)) := by
  induction l generalizing acc with
  | nil => simp
  | cons a l ih =>
    simp only [List.foldl_cons, List.filter_cons]
    cases h : q a
    · simp only [Bool.not_false, if_true]
      rw [ih]
      simp
    · simp only [Bool.not_true, Bool.false_eq_true, if_false]
      rw [ih]

theorem removeSafe_eq_filter {E : Type} (Match : String → String → Except E Bool)
    (packages : List String) (safespaces : String) :
    removeSafe Match packages safespaces =
      packages.filter
        (fun p => !(((Split safespaces ',').map TrimSpace).any (fun s => matched (Match s p)))) := by
  unfold removeSafe
  simp only [foldl_append_map, List.nil_append]
  rw [foldl_append_filter (fun p => ignoredBy Match ((Split safespaces ',').map TrimSpace) p)]
  simp [ignoredBy_eq_any]

theorem splitChars_ne_nil (sep : Char) (cs : List Char) : splitChars sep cs ≠ [] := by
  cases cs with
  | nil => simp [splitChars]
  | cons c cs =>
    simp only [splitChars]
    split
    · simp
    · split <;> simp

theorem splitChars_intercalate (sep : Char) (cs : List Char) :
    List.intercalate [sep] (splitChars sep cs) = cs := by
  induction cs with
  | nil => simp [splitChars, List.intercalate]
  | cons c cs ih =>
    simp only [splitChars]
    by_cases hc : c = sep
    · simp only [hc, if_true]
      cases hs : splitChars sep cs with
      | nil => exact absurd hs (splitChars_ne_nil sep cs)
      | cons p ps =>
        rw [hs] at ih
        simp only [List.intercalate, List.intersperse, List.flatten] at ih ⊢
        cases ps with
        | nil => simp_all [List.intersperse, List.flatten]
        | cons q qs => simp_all [List.intersperse, List.flatten]
    · simp only [hc, if_false]
      cases hs : splitChars sep cs with
      | nil => exact absurd hs (splitChars_ne_nil sep cs)
      | cons p ps =>
        rw [hs] at ih
        cases ps with
        | nil => simp_all [List.intercalate, List.intersperse, List.flatten]
        | cons q qs => simp_all [List.intercalate, List.intersperse, List.flatten]

theorem splitChars_no_sep (sep : Char) (cs : List Char) :
    ∀ piece ∈ splitChars sep cs, sep ∉ piece := by
  induction cs with
  | nil => simp [splitChars]
  | cons c cs ih =>
    intro piece hp
    simp only [splitChars] at hp
    by_cases hc : c = sep
    · simp only [hc, if_true, List.mem_cons] at hp
      rcases hp with rfl | hp
      · simp
      · exact ih piece hp
    · simp only [hc, if_false] at hp
      cases hs : splitChars sep cs with
      | nil => exact absurd hs (splitChars_ne_nil sep cs)
      | cons p ps =>
        rw [hs] at hp ih
        simp only [List.mem_cons] at hp
        rcases hp with rfl | hp
        · have := ih p (List.mem_cons_self _ _)
          simp only [List.mem_cons, not_or]
          exact ⟨fun h => hc h.symm, this⟩
        · exact ih piece (List.mem_cons_of_mem _ hp)

theorem TrimSpace_spec (s : String) :
    ∃ pre post, s.data = pre ++ (TrimSpace s).data ++ post ∧
      (∀ c ∈ pre, isSpace c = true) ∧ (∀ c ∈ post, isSpace c = true) ∧
      (∀ c, (TrimSpace s).data.head? = some c → isSpace c = false) ∧
      (∀ c, (TrimSpace s).data.getLast? = some c → isSpace c = false) := by
  have hmid : (TrimSpace s).data =
      ((s.data.dropWhile isSpace).reverse.dropWhile isSpace).reverse := rfl
  have hsplit : s.data.dropWhile isSpace =
      ((s.data.dropWhile isSpace).reverse.dropWhile isSpace).reverse ++
        ((s.data.dropWhile isSpace).reverse.takeWhile isSpace).reverse := by
    rw [← List.reverse_append, List.takeWhile_append_dropWhile, List.reverse_reverse]
  have hlast : ∀ c, (TrimSpace s).data.getLast? = some c → isSpace c = false := by
    intro c hc
    rw [hmid, List.getLast?_reverse] at hc
    have h := List.head?_dropWhile_not isSpace (s.data.dropWhile isSpace).reverse
    rw [hc] at h
    exact h
  refine ⟨s.data.takeWhile isSpace,
    ((s.data.dropWhile isSpace).reverse.takeWhile isSpace).reverse, ?_, ?_, ?_, ?_, hlast⟩
  · rw [hmid, List.append_assoc, ← hsplit, List.takeWhile_append_dropWhile]
  · intro c hc
    exact List.mem_takeWhile_imp hc
  · intro c hc
    exact List.mem_takeWhile_imp (List.mem_reverse.1 hc)
  · intro c hc
    have hne : (TrimSpace s).data ≠ [] := by
      intro h
      rw [h] at hc
      simp at hc
    have h := List.head?_dropWhile_not isSpace s.data
    rw [hsplit, ← hmid, List.head?_append_of_ne_nil _ hne, hc] at h
    exact h

/-! ## The matcher never runs out of fuel -/

theorem getEsc_length (chunk : List Char) (r : Char) (rest : List Char)
    (h : getEsc chunk = some (r, rest)) : rest.length < chunk.length := by
  cases chunk with
  | nil => simp [getEsc] at h
  | cons c cs =>
    simp only [getEsc] at h
    split at h
    · simp at h
    · split at h
      · simp at h
      · rename_i r' nchunk heq
        split at h
        · simp at h
        · simp only [Option.some.injEq, Prod.mk.injEq] at h
          obtain ⟨_, rfl⟩ := h
          by_cases hc : c = '\\'
          · simp only [hc, if_true] at heq
            subst heq
            simp
            omega
          · simp only [hc, if_false, List.cons.injEq] at heq
            obtain ⟨_, rfl⟩ := heq
            simp

theorem classLoop_fuel (fuel : Nat) :
    ∀ (r : Char) (m : Bool) (n : Nat) (chunk : List Char), chunk.length < fuel →
      classLoop fuel r m n chunk ≠ .error .outOfFuel ∧
        ∀ m' rest, classLoop fuel r m n chunk = .ok (m', rest) → rest.length < chunk.length := by
  induction fuel with
  | zero => intro r m n chunk h; omega
  | succ fuel ih =>
    intro r m n chunk h
    simp only [classLoop]
    split
    · rename_i hc
      refine ⟨by simp, ?_⟩
      intro m' rest heq
      simp only [Except.ok.injEq, Prod.mk.injEq] at heq
      obtain ⟨_, rfl⟩ := heq
      cases chunk with
      | nil => simp at hc
      | cons c cs => simp
    · cases h1 : getEsc chunk with
      | none => simp
      | some p =>
        obtain ⟨lo, chunk1⟩ := p
        have hl1 := getEsc_length chunk lo chunk1 h1
        simp only
        split
        · cases h2 : getEsc chunk1.tail with
          | none => simp
          | some p2 =>
            obtain ⟨hi, chunk2⟩ := p2
            have hl2 := getEsc_length chunk1.tail hi chunk2 h2
            have hl3 : chunk1.tail.length ≤ chunk1.length := by simp
            simp only
            obtain ⟨ha, hb⟩ := ih r (m || (decide (lo ≤ r) && decide (r ≤ hi))) (n + 1) chunk2
              (by omega)
            exact ⟨ha, fun m' rest heq => by have := hb m' rest heq; omega⟩
        · obtain ⟨ha, hb⟩ := ih r (m || (decide (lo ≤ r) && decide (r ≤ lo))) (n + 1) chunk1
            (by omega)
          exact ⟨ha, fun m' rest heq => by have := hb m' rest heq; omega⟩

theorem matchChunk_fuel (fuel : Nat) :
    ∀ (failed : Bool) (chunk s : List Char), chunk.length < fuel →
      matchChunk fuel failed chunk s ≠ .error .outOfFuel := by
  induction fuel with
  | zero => intro failed chunk s h; omega
  | succ fuel ih =>
    intro failed chunk s h
    cases chunk with
    | nil =>
      simp only [matchChunk]
      split <;> simp
    | cons c rest =>
      simp only [List.length_cons] at h
      simp only [matchChunk]
      split
      · -- character class
        have hl : (if (rest.head? == some '^') = true then rest.tail else rest).length < fuel := by
          have : rest.tail.length ≤ rest.length := by simp
          split <;> omega
        have hc := classLoop_fuel fuel
          (if (failed || s.isEmpty) = true then Char.ofNat 0 else s.headD (Char.ofNat 0)) false 0
          (if (rest.head? == some '^') = true then rest.tail else rest) hl
        split
        · rename_i e heq
          intro he
          simp only [Except.error.injEq] at he
          subst he
          exact hc.1 heq
        · rename_i m' chunk2 heq
          have := hc.2 m' chunk2 heq
          exact ih _ _ _ (by omega)
      · split
        · split
          · exact ih _ _ _ (by omega)
          · exact ih _ _ _ (by omega)
        · split
          · split
            · simp
            · rename_i c2 rest2
              simp only [List.length_cons] at h
              split
              · exact ih _ _ _ (by omega)
              · exact ih _ _ _ (by omega)
          · split
            · exact ih _ _ _ (by omega)
            · exact ih _ _ _ (by omega)

theorem scanLoop_length_aux (n : Nat) :
    ∀ (l : List Char), l.length ≤ n → ∀ inrange, (scanLoop inrange l).2.length ≤ l.length := by
  induction n with
  | zero =>
    intro l hl inrange
    cases l with
    | nil => simp [scanLoop]
    | cons a as => simp at hl
  | succ n ihn =>
    intro l hl inrange
    cases l with
    | nil => simp [scanLoop]
    | cons a as =>
      simp only [List.length_cons] at hl
      rw [scanLoop.eq_def]
      simp only
      split
      · cases as with
        | nil => simp
        | cons a2 as2 =>
          simp only [List.length_cons] at hl ⊢
          have := ihn as2 (by omega) inrange
          omega
      · split
        · have := ihn as (by omega) true
          simp only [List.length_cons]
          omega
        · split
          · have := ihn as (by omega) false
            simp only [List.length_cons]
            omega
          · split
            · simp
            · have := ihn as (by omega) inrange
              simp only [List.length_cons]
              omega

theorem scanLoop_length (l : List Char) (inrange : Bool) :
    (scanLoop inrange l).2.length ≤ l.length :=
  scanLoop_length_aux l.length l (Nat.le_refl _) inrange

theorem scanLoop_progress (c : Char) (rest : List Char) (hc : c ≠ '*') :
    (scanLoop false (c :: rest)).2.length < (c :: rest).length := by
  rw [scanLoop.eq_def]
  simp only
  split
  · cases rest with
    | nil => simp
    | cons a2 as2 =>
      have := scanLoop_length as2 false
      simp only [List.length_cons]
      omega
  · split
    · have := scanLoop_length rest true
      simp only [List.length_cons]
      omega
    · split
      · have := scanLoop_length rest false
        simp only [List.length_cons]
        omega
      · split
        · rename_i h
          exact absurd h.1 hc
        · have := scanLoop_length rest false
          simp only [List.length_cons]
          omega

theorem dropWhile_length_le (p : Char → Bool) (l : List Char) :
    (l.dropWhile p).length ≤ l.length := by
  induction l with
  | nil => simp
  | cons a l ih =>
    simp only [List.dropWhile_cons]
    split
    · simp only [List.length_cons]; omega
    · simp

theorem scanChunk_progress (pattern : List Char) (h : pattern ≠ []) :
    (scanChunk pattern).2.2.length < pattern.length := by
  cases pattern with
  | nil => exact absurd rfl h
  | cons c rest =>
    simp only [scanChunk]
    by_cases hc : c = '*'
    · subst hc
      have h1 : List.dropWhile (fun c => c == '*') ('*' :: rest) =
          List.dropWhile (fun c => c == '*') rest := by
        simp [List.dropWhile_cons]
      rw [h1]
      have h2 := scanLoop_length (List.dropWhile (fun c => c == '*') rest) false
      have h3 := dropWhile_length_le (fun c => c == '*') rest
      simp only [List.length_cons]
      omega
    · have h1 : List.dropWhile (fun c => c == '*') (c :: rest) = c :: rest := by
        simp [List.dropWhile_cons, hc]
      rw [h1]
      exact scanLoop_progress c rest hc

theorem starLoop_fuel (chunk : List Char) (last : Bool) (name : List Char) :
    starLoop chunk last name ≠ .error .outOfFuel := by
  induction name with
  | nil => simp [starLoop]
  | cons c rest ih =>
    simp only [starLoop]
    split
    · simp
    · have hm := matchChunk_fuel (chunk.length + 1) false chunk rest (by omega)
      split
      · rename_i e heq
        intro he
        simp only [Except.error.injEq] at he
        subst he
        exact hm heq
      · split
        · exact ih
        · simp
      · exact ih

theorem checkRest_fuel (fuel : Nat) :
    ∀ pattern : List Char, pattern.length < fuel → checkRest fuel pattern ≠ .error .outOfFuel := by
  induction fuel with
  | zero => intro pattern h; omega
  | succ fuel ih =>
    intro pattern h
    simp only [checkRest]
    split
    · simp
    · rename_i hne
      have hp := scanChunk_progress pattern hne
      have hm := matchChunk_fuel ((scanChunk pattern).2.1.length + 1) false (scanChunk pattern).2.1 []
        (by omega)
      split
      · rename_i e heq
        intro he
        simp only [Except.error.injEq] at he
        subst he
        exact hm heq
      · exact ih _ (by omega)

theorem matchLoop_fuel (fuel : Nat) :
    ∀ pattern name : List Char, pattern.length < fuel →
      matchLoop fuel pattern name ≠ .error .outOfFuel := by
  induction fuel with
  | zero => intro pattern name h; omega
  | succ fuel ih =>
    intro pattern name h
    simp only [matchLoop]
    split
    · simp
    · rename_i hne
      have hp := scanChunk_progress pattern hne
      split
      · simp
      · have hm := matchChunk_fuel ((scanChunk pattern).2.1.length + 1) false
          (scanChunk pattern).2.1 name (by omega)
        split
        · rename_i e heq
          intro he
          simp only [Except.error.injEq] at he
          subst he
          exact hm heq
        · split
          · exact ih _ _ (by omega)
          · split
            · rename_i e heq
              intro he
              simp only [Except.error.injEq] at he
              subst he
              revert heq
              split
              · exact starLoop_fuel _ _ _
              · simp
            · exact ih _ _ (by omega)
            · exact checkRest_fuel _ _ (by omega)

/-- The matcher always answers as the library does: with a verdict or with
`ErrBadPattern`. -/
theorem filepathMatch_total (pattern name : String) :
    filepathMatch pattern name ≠ .error .outOfFuel :=
  matchLoop_fuel _ _ _ (by omega)

/-- The pattern `[` is malformed for every name. -/
theorem filepathMatch_open_bracket (name : String) :
    filepathMatch "[" name = .error .errBadPattern := by
  have hd : "[".data = ['['] := rfl
  simp [filepathMatch, hd, matchLoop, scanChunk, scanLoop, matchChunk, classLoop, getEsc]

/-- C6: `removeSafe` returns, in the original order and with multiplicity, exactly the
names that no pattern matches, the patterns being the pieces of the pattern list
between its commas, each with its leading and trailing white space removed; a pattern
on which the matcher reports an error matches nothing.  With `filepath.Match` as
modelled: the pattern `@internal/*` removes @internal/foo and @internal/bar and keeps
@other/foo, and the malformed pattern `[` removes nothing. -/
theorem C6_remove_safe {E : Type} (Match : String → String → Except E Bool)
    (packages : List String) (safespaces : String) :
    removeSafe Match packages safespaces =
        packages.filter
          (fun p =>
            !(((Split safespaces ',').map TrimSpace).any (fun s => matched (Match s p)))) ∧
      (∀ s p e, Match s p = .error e → matched (Match s p) = false) ∧
      List.intercalate [','] ((Split safespaces ',').map String.data) = safespaces.data ∧
      (∀ piece ∈ Split safespaces ',', ',' ∉ piece.data) ∧
      (∀ piece : String, ∃ pre post, piece.data = pre ++ (TrimSpace piece).data ++ post ∧
        (∀ c ∈ pre, isSpace c = true) ∧ (∀ c ∈ post, isSpace c = true) ∧
        (∀ c, (TrimSpace piece).data.head? = some c → isSpace c = false) ∧
        (∀ c, (TrimSpace piece).data.getLast? = some c → isSpace c = false)) ∧
      removeSafe filepathMatch ["@internal/foo", "@internal/bar", "@other/foo"] "@internal/*" =
        ["@other/foo"] ∧
      removeSafe filepathMatch packages "[" = packages := by
  refine ⟨removeSafe_eq_filter Match packages safespaces, ?_, ?_, ?_, TrimSpace_spec, by decide, ?_⟩
  · intro s p e h
    rw [h]
    rfl
  · simp only [Split, List.map_map]
    have : (String.data ∘ String.mk) = id := rfl
    rw [this, List.map_id, splitChars_intercalate]
  · intro piece hp
    simp only [Split, List.mem_map] at hp
    obtain ⟨cs, hcs, rfl⟩ := hp
    exact splitChars_no_sep ',' safespaces.data cs hcs
  · rw [removeSafe_eq_filter]
    have hs : (Split "[" ',').map TrimSpace = ["["] := by decide
    rw [hs]
    simp [filepathMatch_open_bracket, matched]

/-- Witness of C9: the left-pad manifest decodes as shape (1), the end-to-end manifest
as shape (2) only, and the file `7` as neither. -/
theorem C9_shape_order_and_error_witness :
    (∀ up' : RawFile → Except JSONError ComposerInstalledJSONPkg,
      ReadPackagesFromFile jsonUnmarshalVendor up' RangeOrder.stored
          (NewComposerInstalledLookup false) leftPadDoc =
        (none, { NewComposerInstalledLookup false with
          Packages := appendRecords RangeOrder.stored 0 [⟨"", [("left-pad", "^1.0.0")], []⟩]
            (NewComposerInstalledLookup false).Packages })) ∧
    ReadPackagesFromFile jsonUnmarshalVendor jsonUnmarshalPkg RangeOrder.stored
        (NewComposerInstalledLookup false) exampleDoc =
      (none, { NewComposerInstalledLookup false with
        Packages := appendRecords RangeOrder.stored 0
          [⟨"acme/core", [("ext-json", "*"), ("acme/util", "1.0")], []⟩]
          (appendEach (NewComposerInstalledLookup false).Packages ["acme/test-helper"]) }) ∧
    (ReadPackagesFromFile jsonUnmarshalVendor jsonUnmarshalPkg RangeOrder.stored
        ⟨["kept"], true⟩ numberDoc).1 ≠ none ∧
    (ReadPackagesFromFile jsonUnmarshalVendor jsonUnmarshalPkg RangeOrder.stored
        ⟨["kept"], true⟩ numberDoc).2 = ⟨["kept"], true⟩ :=
  ⟨(C9_shape_order_and_error jsonUnmarshalVendor jsonUnmarshalPkg RangeOrder.stored
      (NewComposerInstalledLookup false) leftPadDoc).1 [⟨"", [("left-pad", "^1.0.0")], []⟩] rfl,
    (C9_shape_order_and_error jsonUnmarshalVendor jsonUnmarshalPkg RangeOrder.stored
      (NewComposerInstalledLookup false) exampleDoc).2.1 JSONError.unmarshalTypeError
      ⟨[⟨"acme/core", [("ext-json", "*"), ("acme/util", "1.0")], []⟩], ["acme/test-helper"]⟩
      rfl rfl,
    (C9_shape_order_and_error jsonUnmarshalVendor jsonUnmarshalPkg RangeOrder.stored
      ⟨["kept"], true⟩ numberDoc).2.2.1.2
      ⟨⟨JSONError.unmarshalTypeError, rfl⟩, ⟨JSONError.unmarshalTypeError, rfl⟩⟩,
    (C9_shape_order_and_error jsonUnmarshalVendor jsonUnmarshalPkg RangeOrder.stored
      ⟨["kept"], true⟩ numberDoc).2.2.2
      ((C9_shape_order_and_error jsonUnmarshalVendor jsonUnmarshalPkg RangeOrder.stored
        ⟨["kept"], true⟩ numberDoc).2.2.1.2
        ⟨⟨JSONError.unmarshalTypeError, rfl⟩, ⟨JSONError.unmarshalTypeError, rfl⟩⟩)⟩

/-- C10 fails as stated: a record without a name field yields the empty string as a
candidate, and so do an empty-string key of a require map and an empty string in
dev-package-names. -/
theorem C10_empty_name_counterexample :
    readInstalled RangeOrder.stored (NewComposerInstalledLookup false) namelessDoc =
        (none, ⟨[""], false⟩) ∧
      readInstalled RangeOrder.stored (NewComposerInstalledLookup false) emptyKeyDoc =
        (none, ⟨["", "x", ""], false⟩) ∧
      ¬ 1 ≤ "".length :=
  ⟨rfl, rfl, by decide⟩

/-- Witness of amended C10 on the end-to-end manifest, whose four names are non-empty. -/
theorem C10_nonempty_names_preserved_witness :
    (ReadPackagesFromFile jsonUnmarshalVendor jsonUnmarshalPkg RangeOrder.stored
        (NewComposerInstalledLookup false) exampleDoc).1 = none ∧
      ∃ app, (ReadPackagesFromFile jsonUnmarshalVendor jsonUnmarshalPkg RangeOrder.stored
          (NewComposerInstalledLookup false) exampleDoc).2.Packages =
          (NewComposerInstalledLookup false).Packages ++ app ∧
        ∀ s ∈ app, 1 ≤ s.length :=
  ⟨rfl,
    C10_nonempty_names_preserved jsonUnmarshalVendor jsonUnmarshalPkg RangeOrder.stored
      (NewComposerInstalledLookup false) exampleDoc
      (fun data h => by
        have hv : jsonUnmarshalVendor exampleDoc = .error .unmarshalTypeError := rfl
        rw [hv] at h
        cases h)
      (fun e data2 _ h => by
        have hp : jsonUnmarshalPkg exampleDoc =
            .ok ⟨[⟨"acme/core", [("ext-json", "*"), ("acme/util", "1.0")], []⟩],
              ["acme/test-helper"]⟩ := rfl
        rw [hp] at h
        cases h
        refine ⟨?_, ?_⟩
        · intro s hs
          simp only [List.mem_singleton] at hs
          subst hs
          decide
        · intro r hr
          simp only [List.mem_singleton] at hr
          subst hr
          refine ⟨by decide, ?_, ?_⟩
          · intro k hk
            simp only [GoMap.keys, List.map_cons, List.map_nil, List.mem_cons,
              List.mem_singleton, List.not_mem_nil, or_false] at hk
            rcases hk with rfl | rfl <;> decide
          · intro k hk
            simp [GoMap.keys] at hk)
      rfl⟩

/-- `GoMap.set` keeps the keys pairwise distinct. -/
theorem GoMap.set_keys_nodup (m : GoMap) (k v : String) (h : (GoMap.keys m).Nodup) :
    (GoMap.keys (GoMap.set m k v)).Nodup := by
  induction m with
  | nil => simp [GoMap.set, GoMap.keys]
  | cons kv m ih =>
    obtain ⟨k', v'⟩ := kv
    simp only [GoMap.keys, List.map_cons, List.nodup_cons] at h
    simp only [GoMap.set]
    split
    · simpa [GoMap.keys] using h
    · rename_i hne
      have hmem : ∀ x, x ∈ GoMap.keys (GoMap.set m k v) → x = k ∨ x ∈ GoMap.keys m := by
        intro x
        clear ih h
        induction m with
        | nil => simp [GoMap.set, GoMap.keys]
        | cons kv2 m ih2 =>
          obtain ⟨k2, v2⟩ := kv2
          simp only [GoMap.set]
          split
          · simp only [GoMap.keys, List.map_cons, List.mem_cons]
            exact fun h => Or.inr h
          · simp only [GoMap.keys, List.map_cons, List.mem_cons]
            rintro (h | h)
            · exact Or.inr (Or.inl h)
            · rcases ih2 h with h | h
              · exact Or.inl h
              · exact Or.inr (Or.inr h)
      simp only [GoMap.keys, List.map_cons, List.nodup_cons]
      refine ⟨?_, ih h.2⟩
      intro hk
      rcases hmem k' hk with h' | h'
      · exact hne h'
      · exact h.1 h'

end Confused
